import Mathlib

/-!
Verification of the Image_Analysis data-extraction core.

This file gives a shallow embedding of the two source files
`02_Data-Extraction/scripts/rme_parser.py` and
`02_Data-Extraction/scripts/KeemPlot.py` and proves properties of the
embedded definitions.

Modelling conventions:
* a text file is a list of lines (trailing newline characters already
  removed, mirroring the `line.strip("\n")` in the source);
* Python lists become Lean lists, Python strings Lean strings;
* numpy floating point arrays become lists of rationals (exact
  arithmetic in place of IEEE floats);
* pandas DataFrames become a `Table` structure (column names plus rows
  of optional cells, `none` standing for a missing value / NaN);
* operations that can raise return `Option`, with `none` for the raise.
-/

namespace ImageAnalysis

/-! ### The metadata parser, from `rme_parser.py`

The `parser` method of class `rme_parser` walks the lines of the file
with an integer state `level` (0 = outside a block, 1 = inside a
COMMON block, 2 = inside a GROUP block) and a `first_line` flag.  The
mutable attributes `header`, `infos` and the locals `common`, `data`
are collected into `ParserState`.
-/

/-- The ASCII whitespace characters removed by the Python method
`str.strip()` with no argument. -/
def isPySpace (c : Char) : Bool :=
  c = ' ' || c = '\t' || c = '\n' || c = '\r' || c = '\x0b' || c = '\x0c'

/-- Removing leading and trailing whitespace from a character list,
the effect of `str.strip()`.  (Defined on character lists because the
built-in string functions do not reduce in the kernel.) -/
def trimChars (l : List Char) : List Char :=
  ((l.dropWhile isPySpace).reverse.dropWhile isPySpace).reverse

/-- `str.strip()`. -/
def pyStrip (s : String) : String := String.mk (trimChars s.data)

/-- Whether the first list is a leading segment of the second, the
effect of `str.startswith`. -/
def leadsChars : List Char → List Char → Bool
  | [], _ => true
  | _ :: _, [] => false
  | a :: as, b :: bs => a = b && leadsChars as bs

/-- `s.startswith(p)`. -/
def pyStartswith (s p : String) : Bool := leadsChars p.data s.data

/-- Splitting a character list at every occurrence of `sep`, keeping
empty fields, the effect of `str.split(sep)` for a one-character
separator.  The empty input yields one empty field. -/
def splitOnChar (sep : Char) : List Char → List (List Char)
  | [] => [[]]
  | c :: cs =>
    let r := splitOnChar sep cs
    if c = sep then [] :: r
    else
      match r with
      | [] => [c] :: []
      | h :: t => (c :: h) :: t

/-- `line.split(sep=",")`. -/
def pySplitComma (s : String) : List String :=
  (splitOnChar ',' s.data).map String.mk

structure ParserState where
  level : Nat
  first_line : Bool
  header : List String
  common : List String
  data : List (List String)
  infos : List (List (List String))
  deriving DecidableEq

/-- `self.PARSE1 = "*--*"`, the COMMON block marker. -/
def PARSE1 : String := "*--*"

/-- `self.PARSE2 = "*-*"`, the GROUP block marker. -/
def PARSE2 : String := "*-*"

/-- `line.strip().startswith(self.PARSE1)`. -/
def isMarker1 (line : String) : Bool := pyStartswith (pyStrip line) PARSE1

/-- `line.strip().startswith(self.PARSE2)`. -/
def isMarker2 (line : String) : Bool := pyStartswith (pyStrip line) PARSE2

/-- The loop in `parser` that renames every header entry literally
equal to `"feed"` to `"diet"`. -/
def renameFeed (h : List String) : List String :=
  h.map (fun w => if w = "feed" then "diet" else w)

/-- The two marker checks at the bottom of the loop body: a line
starting with `PARSE1` sets `level = 1`, a line starting with `PARSE2`
sets `level = 2`, each also setting `first_line = True`. -/
def markerUpdate (s : ParserState) (line : String) : ParserState :=
  let s1 := if isMarker1 line then { s with level := 1, first_line := true } else s
  if isMarker2 line then { s1 with level := 2, first_line := true } else s1

/-- One iteration of the `for line in lines` loop of `parser`.  The
`continue` statements of the source skip the bottom marker checks, so
the two closing branches return directly without `markerUpdate`. -/
def step (s : ParserState) (line : String) : ParserState :=
  if s.level = 1 then
    if isMarker1 line then { s with level := 0 }
    else
      let s1 :=
        if s.first_line then { s with header := pySplitComma line, first_line := false }
        else { s with common := pySplitComma line }
      markerUpdate s1 line
  else if s.level = 2 then
    if isMarker2 line then { s with infos := s.infos ++ [s.data], data := [], level := 0 }
    else
      let s1 :=
        if s.first_line then
          { s with header := renameFeed (s.header ++ pySplitComma line), first_line := false }
        else { s with data := s.data ++ [s.common ++ pySplitComma line] }
      markerUpdate s1 line
  else markerUpdate s line

/-- The state at the start of `parser`: `level = 0`, empty header,
common row, row accumulator and group list. -/
def initState : ParserState := ⟨0, false, [], [], [], []⟩

/-- Running `parser` on a list of lines. -/
def parseLines (lines : List String) : ParserState :=
  lines.foldl step initState

/-- The metadata text of the concrete scenario of the specification:
one COMMON block with header `id,sex` and common row `A,1`, then one
GROUP block with header `feed,weight` and rows `x,10` and `y,20`. -/
def metaLines : List String :=
  ["*--*", "id,sex", "A,1", "*--*", "*-*", "feed,weight", "x,10", "y,20", "*-*"]

/-! ### The signal pipeline, from `KeemPlot.py`

Images are lists of rows, each row a list of rational pixel values;
signal vectors are lists of rationals.  `np.interp` on the integer
grid `np.arange(la)` is the piecewise linear interpolant through the
points `(i, array[i])`, clamped to the first and last values outside
the index range; `interpGrid` computes exactly that function by
walking the list one unit interval at a time.
-/

/-- The maximum of a list of rationals, with the head as the start
value, modelling `ndarray.max` along one axis (numpy raises on an
empty axis; on the empty list this returns the junk value 0). -/
def amax (l : List ℚ) : ℚ := l.foldl max (l.headD 0)

/-- `image.max(axis=0)`: the column-wise maxima of a 2-D image. -/
def collapse (image : List (List ℚ)) : List ℚ :=
  (List.transpose image).map amax

/-- `np.linspace(a, b, num=n)`: `n` evenly spaced samples from `a` to
`b` inclusive.  For `n = 1` numpy returns `[a]`, for `n = 0` the empty
array. -/
def linspace (a b : ℚ) (n : ℕ) : List ℚ :=
  if n ≤ 1 then (List.range n).map (fun _ => a)
  else (List.range n).map (fun i : ℕ => a + (b - a) * (i : ℚ) / ((n : ℚ) - 1))

/-- The function `x ↦ np.interp(x, np.arange(len(fp)), fp)`: piecewise
linear interpolation through `(i, fp[i])`, returning the first value
for `x ≤ 0` and the last value for `x` beyond the last index.  On the
interval `[k, k+1]` the value is `fp[k] + (fp[k+1] - fp[k]) * (x - k)`;
the recursion shifts `x` down by one per element. -/
def interpGrid : List ℚ → ℚ → ℚ
  | [], _ => 0
  | [v], _ => v
  | a :: b :: t, x =>
    if x ≤ 0 then a
    else if x ≤ 1 then a + (b - a) * x
    else interpGrid (b :: t) (x - 1)

/-- `KeemPlot._interp1d`: resample `array` to `new_len` samples by
linear interpolation over the original index range `[0, la - 1]`. -/
def interp1d (array : List ℚ) (new_len : ℕ) : List ℚ :=
  (linspace 0 ((array.length : ℚ) - 1) new_len).map (interpGrid array)

/-- `arr_int[arr_int < t] = 0`: zero every element strictly below the
relative threshold `t`. -/
def thresholdVec (arr : List ℚ) (t : ℚ) : List ℚ :=
  arr.map (fun v => if v < t then 0 else v)

/-- The body of the loop of `KeemPlot._process` for one image,
returning the triple of vectors appended to `flatdata_ni`,
`flatdata_ut` and `flatdata`: the normalized collapsed vector, its
resampling to `final_len`, and the resampled vector thresholded at
`threshold / max_value` (the `self._threshold` computed in
`KeemPlot.__init__`). -/
def process1 (image : List (List ℚ)) (max_value threshold : ℚ) (final_len : ℕ) :
    List ℚ × List ℚ × List ℚ :=
  let arr := (collapse image).map (fun v => v / max_value)
  let arr_int := interp1d arr final_len
  (arr, arr_int, thresholdVec arr_int (threshold / max_value))

/-! ### Group selection, from `KeemPlot.__init__`

`self.dbdata = self.metadata.infos[group_number-1]` uses Python
sequence indexing: a negative index counts from the end, and only an
index outside `[-len, len-1]` raises `IndexError`.
-/

/-- Python sequence indexing `l[i]`: negative indices count from the
end; `none` models the `IndexError` raise. -/
def pyIndex {α : Type} (l : List α) (i : ℤ) : Option α :=
  let j := if i < 0 then i + l.length else i
  if j < 0 then none else l[j.toNat]?

/-- `self.metadata.infos[group_number-1]`, the group selection in
`KeemPlot.__init__`. -/
def selectGroup {α : Type} (infos : List α) (group_number : ℤ) : Option α :=
  pyIndex infos (group_number - 1)

/-! ### The table merge, from `KeemPlot.update_db`

A pandas `DataFrame` is modelled as a list of column names plus a list
of rows of optional cells (`none` = NaN / missing).  `update_db` does
`pd.concat([old, new], axis=0, ignore_index=True, join="outer")`, then
`drop_duplicates(subset=["ID"], keep="last")`, then
`reset_index(drop=True)`.  The outer concat takes the union of the
column sets (first-appearance order, `sort=False` default) and fills
cells of absent columns with NaN; `drop_duplicates` raises `KeyError`
when the subset column is missing (modelled by `none`), and treats NaN
keys as equal to each other.  The row index is not modelled: a list is
always contiguously numbered, which is what `ignore_index=True` and
`reset_index(drop=True)` guarantee.
-/

structure Table where
  cols : List String
  rows : List (List (Option String))
  deriving DecidableEq

/-- Well-formedness of a `DataFrame`: column labels are distinct and
every row has one cell per column. -/
def Table.WF (t : Table) : Prop :=
  t.cols.Nodup ∧ ∀ r ∈ t.rows, r.length = t.cols.length

/-- The value of column `c` in a row given as (column, cell) pairs:
the cell of the first pair labelled `c`, or `none` when there is no
such pair. -/
def lookupCol (c : String) : List (String × Option String) → Option String
  | [] => none
  | (s, v) :: rest => if s = c then v else lookupCol c rest

/-- Reindexing a row from the columns `src` to the columns `dst`,
filling columns absent from `src` with NaN — the cell-level effect of
an outer-join concat. -/
def alignRow (src : List String) (row : List (Option String)) (dst : List String) :
    List (Option String) :=
  dst.map (fun c => lookupCol c (src.zip row))

/-- The column union of an outer concat with `sort=False`: the columns
of the first frame followed by the new columns of the second in their
original order. -/
def colUnion (c1 c2 : List String) : List String :=
  c1 ++ c2.filter (fun c => decide (c ∉ c1))

/-- `pd.concat([t1, t2], axis=0, ignore_index=True, join="outer")`. -/
def concatOuter (t1 t2 : Table) : Table :=
  let cc := colUnion t1.cols t2.cols
  ⟨cc, t1.rows.map (fun r => alignRow t1.cols r cc) ++
       t2.rows.map (fun r => alignRow t2.cols r cc)⟩

/-- The value of the `"ID"` column of a row of a table with columns
`cols`, the deduplication key of `drop_duplicates(subset=["ID"])`. -/
def rowID (cols : List String) (row : List (Option String)) : Option String :=
  lookupCol "ID" (cols.zip row)

/-- `drop_duplicates(keep="last")` generalized over a key function:
keep a row only when no later row has the same key. -/
def dedupLastBy {α K : Type} [DecidableEq K] (k : α → K) : List α → List α
  | [] => []
  | x :: xs =>
    if xs.any (fun y => decide (k y = k x)) then dedupLastBy k xs
    else x :: dedupLastBy k xs

/-- `KeemPlot.update_db` without the pickle I/O: outer concat, then
`drop_duplicates(subset=["ID"], keep="last")`, then reindexing.
`none` models the `KeyError` raised by `drop_duplicates` when no
column is labelled `"ID"`. -/
def update_db (old new : Table) : Option Table :=
  let c := concatOuter old new
  if "ID" ∈ c.cols then some ⟨c.cols, dedupLastBy (rowID c.cols) c.rows⟩
  else none

/-- The list of `"ID"` cells of a table, in row order. -/
def tableIDs (t : Table) : List (Option String) :=
  t.rows.map (rowID t.cols)

/-! ### Generic lemmas about `dedupLastBy` -/

theorem zip_cons {α β : Type} (a : α) (b : β) (as : List α) (bs : List β) :
    (a :: as).zip (b :: bs) = (a, b) :: as.zip bs := rfl

theorem getLast?_cons_of_ne_nil {α : Type} (x : α) {l : List α} (h : l ≠ []) :
    (x :: l).getLast? = l.getLast? := by
  cases l with
  | nil => exact absurd rfl h
  | cons a t => exact List.getLast?_cons_cons

theorem dedupLastBy_sublist {α K : Type} [DecidableEq K] (k : α → K) (l : List α) :
    (dedupLastBy k l).Sublist l := by
  induction l with
  | nil => exact List.Sublist.refl _
  | cons x xs ih =>
    rw [dedupLastBy]
    split
    · exact ih.cons x
    · exact ih.cons₂ x

theorem mem_map_dedupLastBy {α K : Type} [DecidableEq K] (k : α → K) (l : List α) (a : K) :
    a ∈ (dedupLastBy k l).map k ↔ a ∈ l.map k := by
  induction l with
  | nil => simp [dedupLastBy]
  | cons x xs ih =>
    rw [dedupLastBy]
    split
    · next h =>
      simp only [List.any_eq_true, decide_eq_true_eq] at h
      obtain ⟨y, hy, hky⟩ := h
      rw [ih]
      simp only [List.map_cons, List.mem_cons]
      constructor
      · exact Or.inr
      · rintro (rfl | h2)
        · exact hky ▸ List.mem_map_of_mem k hy
        · exact h2
    · simp only [List.map_cons, List.mem_cons, ih]

theorem nodup_map_dedupLastBy {α K : Type} [DecidableEq K] (k : α → K) (l : List α) :
    ((dedupLastBy k l).map k).Nodup := by
  induction l with
  | nil => simp [dedupLastBy]
  | cons x xs ih =>
    rw [dedupLastBy]
    split
    · exact ih
    · next h =>
      simp only [List.any_eq_true, decide_eq_true_eq, not_exists] at h
      push_neg at h
      refine List.Nodup.cons (fun hmem => ?_) ih
      rw [mem_map_dedupLastBy] at hmem
      obtain ⟨y, hy, hky⟩ := List.mem_map.mp hmem
      exact h y hy hky

theorem dedupLastBy_eq_self {α K : Type} [DecidableEq K] (k : α → K) (l : List α)
    (h : (l.map k).Nodup) : dedupLastBy k l = l := by
  induction l with
  | nil => rfl
  | cons x xs ih =>
    simp only [List.map_cons, List.nodup_cons] at h
    rw [dedupLastBy, if_neg, ih h.2]
    simp only [List.any_eq_true, decide_eq_true_eq, not_exists]
    push_neg
    intro y hy hky
    exact h.1 (hky ▸ List.mem_map_of_mem k hy)

theorem dedupLastBy_append {α K : Type} [DecidableEq K] (k : α → K) (xs ys : List α) :
    dedupLastBy k (xs ++ ys) =
      (dedupLastBy k xs).filter (fun x => !ys.any (fun y => decide (k y = k x))) ++
        dedupLastBy k ys := by
  induction xs with
  | nil => simp [dedupLastBy]
  | cons x xs ih =>
    rw [List.cons_append, dedupLastBy, dedupLastBy, List.any_append]
    by_cases h1 : xs.any (fun y => decide (k y = k x)) = true
    · simp only [h1, Bool.true_or, if_pos, ih, if_true]
    · by_cases h2 : ys.any (fun y => decide (k y = k x)) = true
      · simp [h1, h2, ih, List.filter_cons]
      · simp [h1, h2, ih, List.filter_cons]

theorem filter_dedupLastBy {α K : Type} [DecidableEq K] (k : α → K) (v : K) (l : List α) :
    (dedupLastBy k l).filter (fun x => decide (k x = v)) =
      (l.filter (fun x => decide (k x = v))).getLast?.toList := by
  induction l with
  | nil => rfl
  | cons x xs ih =>
    rw [dedupLastBy]
    by_cases hkx : k x = v
    · by_cases h1 : xs.any (fun y => decide (k y = k x)) = true
      · rw [if_pos h1, ih, List.filter_cons_of_pos (by simp [hkx])]
        have hne : xs.filter (fun x => decide (k x = v)) ≠ [] := by
          simp only [List.any_eq_true, decide_eq_true_eq] at h1
          obtain ⟨y, hy, hky⟩ := h1
          have : y ∈ xs.filter (fun x => decide (k x = v)) :=
            List.mem_filter.mpr ⟨hy, by simp [hky, hkx]⟩
          exact List.ne_nil_of_mem this
        rw [getLast?_cons_of_ne_nil x hne]
      · have hnil : xs.filter (fun x => decide (k x = v)) = [] := by
          rw [List.filter_eq_nil_iff]
          intro y hy
          simp only [List.any_eq_true, decide_eq_true_eq] at h1
          push_neg at h1
          simp only [decide_eq_true_eq]
          exact fun hv => h1 y hy (hv.trans hkx.symm)
        rw [if_neg h1, List.filter_cons_of_pos (by simp [hkx]), ih, hnil,
          List.filter_cons_of_pos (by simp [hkx]), hnil]
        rfl
    · by_cases h1 : xs.any (fun y => decide (k y = k x)) = true
      · rw [if_pos h1, ih, List.filter_cons_of_neg (by simp [hkx])]
      · rw [if_neg h1, List.filter_cons_of_neg (by simp [hkx]), ih,
          List.filter_cons_of_neg (by simp [hkx])]

theorem dedupLastBy_append_self {α K : Type} [DecidableEq K] (k : α → K) (xs ys : List α) :
    dedupLastBy k (dedupLastBy k (xs ++ ys) ++ ys) = dedupLastBy k (xs ++ ys) := by
  have hself : dedupLastBy k (dedupLastBy k (xs ++ ys)) = dedupLastBy k (xs ++ ys) :=
    dedupLastBy_eq_self k _ (nodup_map_dedupLastBy k _)
  rw [dedupLastBy_append, hself]
  conv_lhs =>
    rw [dedupLastBy_append k xs ys, List.filter_append, List.filter_filter]
  have h1 : ∀ p : α → Bool,
      (dedupLastBy k xs).filter (fun a => p a && p a) = (dedupLastBy k xs).filter p := by
    intro p
    apply List.filter_congr
    intro a _
    exact Bool.and_self (p a)
  rw [h1]
  have h2 : (dedupLastBy k ys).filter
      (fun x => !ys.any (fun y => decide (k y = k x))) = [] := by
    rw [List.filter_eq_nil_iff]
    intro a ha
    have hmem : a ∈ ys := (dedupLastBy_sublist k ys).subset ha
    simp only [Bool.not_eq_true, Bool.not_eq_true', List.any_eq_false,
      decide_eq_true_eq, not_forall]
    exact ⟨a, hmem, not_not_intro rfl⟩
  rw [h2, List.append_nil, ← dedupLastBy_append]

/-! ### Lemmas about column lookup and row alignment -/

theorem lookupCol_zip_map (dst : List String) (f : String → Option String) (c : String) :
    lookupCol c (dst.zip (dst.map f)) = if c ∈ dst then f c else none := by
  induction dst with
  | nil => simp [lookupCol]
  | cons d ds ih =>
    rw [List.map_cons, zip_cons, lookupCol]
    by_cases h : d = c
    · subst h
      simp
    · rw [if_neg h, ih]
      by_cases hmem : c ∈ ds
      · rw [if_pos hmem, if_pos (List.mem_cons_of_mem d hmem)]
      · rw [if_neg hmem,
          if_neg (by simp only [List.mem_cons, not_or]; exact ⟨fun e => h e.symm, hmem⟩)]

theorem lookupCol_not_mem {c : String} (src : List String) (row : List (Option String))
    (h : c ∉ src) : lookupCol c (src.zip row) = none := by
  induction src generalizing row with
  | nil => rfl
  | cons s ss ih =>
    cases row with
    | nil => rfl
    | cons v vs =>
      rw [zip_cons, lookupCol,
        if_neg (fun e => h (by rw [← e]; exact List.mem_cons_self s ss))]
      exact ih vs (fun hm => h (List.mem_cons_of_mem s hm))

theorem alignRow_self (cols : List String) (row : List (Option String))
    (hn : cols.Nodup) (hl : row.length = cols.length) : alignRow cols row cols = row := by
  induction cols generalizing row with
  | nil =>
    cases row with
    | nil => rfl
    | cons v vs => simp at hl
  | cons c cs ih =>
    cases row with
    | nil => simp at hl
    | cons v vs =>
      simp only [List.nodup_cons] at hn
      simp only [List.length_cons, Nat.succ.injEq] at hl
      show (c :: cs).map (fun c2 => lookupCol c2 ((c :: cs).zip (v :: vs))) = v :: vs
      rw [zip_cons, List.map_cons]
      have hhead : lookupCol c ((c, v) :: cs.zip vs) = v := by
        rw [lookupCol, if_pos rfl]
      have hcongr : ∀ c2 ∈ cs,
          (fun c2 => lookupCol c2 ((c, v) :: cs.zip vs)) c2 =
            (fun c2 => lookupCol c2 (cs.zip vs)) c2 := by
        intro c2 hc2
        show lookupCol c2 ((c, v) :: cs.zip vs) = lookupCol c2 (cs.zip vs)
        rw [lookupCol, if_neg (fun e => hn.1 (by rw [e]; exact hc2))]
      rw [hhead, List.map_congr_left hcongr]
      exact congrArg (v :: ·) (ih vs hn.2 hl)

theorem alignRow_append_pad (src : List String) (row : List (Option String))
    (extras : List String) (hn : src.Nodup) (hl : row.length = src.length)
    (hex : ∀ c ∈ extras, c ∉ src) :
    alignRow src row (src ++ extras) = row ++ extras.map (fun _ => none) := by
  simp only [alignRow, List.map_append]
  congr 1
  · exact alignRow_self src row hn hl
  · apply List.map_congr_left
    intro c hc
    exact lookupCol_not_mem src row (hex c hc)

theorem rowID_alignRow (src : List String) (row : List (Option String))
    (dst : List String) (h : "ID" ∈ dst) :
    rowID dst (alignRow src row dst) = rowID src row := by
  simp only [rowID, alignRow]
  rw [lookupCol_zip_map, if_pos h]

/-! ### Lemmas about the column union -/

theorem mem_colUnion (c : String) (c1 c2 : List String) :
    c ∈ colUnion c1 c2 ↔ c ∈ c1 ∨ c ∈ c2 := by
  simp only [colUnion, List.mem_append, List.mem_filter, decide_eq_true_eq]
  tauto

theorem colUnion_nodup {c1 c2 : List String} (h1 : c1.Nodup) (h2 : c2.Nodup) :
    (colUnion c1 c2).Nodup := by
  refine List.Nodup.append h1 (h2.filter _) ?_
  intro a ha1 ha2
  have := (List.mem_filter.mp ha2).2
  simp only [decide_eq_true_eq] at this
  exact this ha1

theorem colUnion_eq_left {c1 c2 : List String} (h : ∀ c ∈ c2, c ∈ c1) :
    colUnion c1 c2 = c1 := by
  rw [colUnion, List.filter_eq_nil_iff.mpr, List.append_nil]
  intro a ha
  simp only [decide_eq_true_eq, not_not]
  exact h a ha

/-! ### The claims -/

/-- C1, counterexample: on the input whose GROUP block contains the
line `*--*` among its data rows, the parser stores that COMMON-marker
line as a data row of the group (the row `["*--*"]` below), and later
stores the GROUP-marker line `*-*` as the header — so a marker line is
not only a state transition. -/
theorem c1_counterexample :
    (parseLines ["*-*", "h", "x", "*--*", "*-*", "*-*"]).infos = [[["x"], ["*--*"]]] ∧
    (parseLines ["*-*", "h", "x", "*--*", "*-*", "*-*"]).header = ["*-*"] := by decide

/-- C1 (amended): a line starting with the marker of the currently
active block only changes parser state, but a line starting with the
marker of the *other* block type is first dispatched as content of the
active block and only then flips the state: in GROUP state a
COMMON-marker line is appended as a data row before the state moves to
COMMON, and in COMMON state a GROUP-marker line is stored as the
common row (or header, on the first line) before the state moves to
GROUP. -/
theorem c1_amended_cross_marker_dispatch (s : ParserState) (line : String) :
    (s.level = 2 → s.first_line = false → isMarker1 line = true → isMarker2 line = false →
      step s line =
        { s with data := s.data ++ [s.common ++ pySplitComma line],
                 level := 1, first_line := true }) ∧
    (s.level = 1 → s.first_line = false → isMarker2 line = true → isMarker1 line = false →
      step s line =
        { s with common := pySplitComma line, level := 2, first_line := true }) := by
  obtain ⟨lv, fl, hd, cm, da, inf⟩ := s
  constructor
  · rintro rfl rfl hm1 hm2
    simp [step, markerUpdate, hm1, hm2]
  · rintro rfl rfl hm2 hm1
    simp [step, markerUpdate, hm1, hm2]

/-- C1, witness for the amended theorem at concrete states and marker
lines. -/
theorem c1_witness :
    step ⟨2, false, [], [], [], []⟩ "*--*" = ⟨1, true, [], [], [["*--*"]], []⟩ ∧
    step ⟨1, false, [], [], [], []⟩ "*-*" = ⟨2, true, [], ["*-*"], [], []⟩ := by
  constructor
  · exact ((c1_amended_cross_marker_dispatch ⟨2, false, [], [], [], []⟩ "*--*").1
      rfl rfl (by decide) (by decide)).trans (by decide)
  · exact ((c1_amended_cross_marker_dispatch ⟨1, false, [], [], [], []⟩ "*-*").2
      rfl rfl (by decide) (by decide)).trans (by decide)

/-- C2: the concrete scenario of the specification.  The metadata text
with one COMMON block (header `id,sex`, common row `A,1`) followed by
one GROUP block (header `feed,weight`, rows `x,10` and `y,20`) parses
to the header `["id","sex","diet","weight"]` (`feed` renamed to
`diet`) and exactly one group with rows `[["A","1","x","10"],
["A","1","y","20"]]`. -/
theorem c2_concrete_parse_scenario :
    (parseLines metaLines).header = ["id", "sex", "diet", "weight"] ∧
    (parseLines metaLines).infos = [[["A", "1", "x", "10"], ["A", "1", "y", "20"]]] := by
  decide

/-- C3, counterexample: for the image with column-wise maxima
`[0, 32767, 65535]` and `max_value = 65535`, the normalized raw vector
is `[0, 32767/65535, 1]`, and its middle entry is not the `0.5` that
the claim states (`32767/65535 < 1/2`). -/
theorem c3_counterexample :
    (process1 [[0, 32767, 65535]] 65535 39321 5).1 ≠ [0, 1/2, 1] := by
  have htr : List.transpose ([[0, 32767, 65535]] : List (List ℚ)) =
      [[0], [32767], [65535]] := rfl
  have h1 : (process1 [[0, 32767, 65535]] 65535 39321 5).1 = [0, 32767/65535, 1] := by
    simp only [process1]
    rw [collapse, htr]
    norm_num [amax]
  rw [h1]
  intro h
  rw [List.cons_eq_cons, List.cons_eq_cons] at h
  exact absurd h.2.1 (by norm_num)

/-- C3 (amended): for the image whose column-wise maxima are
`[0, 32767, 65535]`, processing with `max_value = 65535` and absolute
threshold `39321` (relative threshold `39321/65535 = 3/5`, the exact
value of the stated `0.6`) produces the normalized vector
`[0, 32767/65535, 1]` (approximately `[0, 0.49999, 1]`, not exactly
`[0, 0.5, 1]`); resampling to length 5 gives
`[0, 32767/131070, 32767/65535, 49151/65535, 1]`; and thresholding
zeroes exactly the entries strictly below `3/5`, giving
`[0, 0, 0, 49151/65535, 1]` (approximately `0.75000`, not exactly
`0.75`). -/
theorem c3_amended_pipeline_scenario :
    process1 [[0, 32767, 65535]] 65535 39321 5 =
      ([0, 32767/65535, 1],
       [0, 32767/131070, 32767/65535, 49151/65535, 1],
       [0, 0, 0, 49151/65535, 1]) := by
  have htr : List.transpose ([[0, 32767, 65535]] : List (List ℚ)) =
      [[0], [32767], [65535]] := rfl
  have hcol : (collapse [[(0 : ℚ), 32767, 65535]]).map (fun v => v / (65535 : ℚ)) =
      [0, 32767/65535, 1] := by
    rw [collapse, htr]
    norm_num [amax]
  have hls : linspace 0 ((([0, 32767/65535, 1] : List ℚ).length : ℚ) - 1) 5 =
      [0, 1/2, 1, 3/2, 2] := by
    rw [linspace, if_neg (by norm_num)]
    norm_num [show List.range 5 = [0, 1, 2, 3, 4] from rfl]
  have hi : interp1d [0, 32767/65535, 1] 5 =
      [0, 32767/131070, 32767/65535, 49151/65535, 1] := by
    rw [interp1d, hls]
    norm_num [interpGrid]
  have ht : thresholdVec [0, 32767/131070, 32767/65535, 49151/65535, 1]
      ((39321 : ℚ) / 65535) = [0, 0, 0, 49151/65535, 1] := by
    norm_num [thresholdVec]
  simp only [process1]
  rw [hcol, hi, ht]

/-- C8, counterexample: merging an existing table that has an `ID`
column with a new table that lacks one succeeds — the outer join
supplies the missing `ID` column as NaN — contradicting the claim that
the merge fails whenever the identifier column is absent from either
table. -/
theorem c8_counterexample :
    update_db ⟨["ID", "v"], [[some "1", some "a"]]⟩ ⟨["v"], [[some "b"]]⟩ =
      some ⟨["ID", "v"], [[some "1", some "a"], [none, some "b"]]⟩ := by decide

/-- C8 (amended): the merge fails (the `KeyError` of
`drop_duplicates`, modelled by `none`) exactly when the `ID` column is
absent from *both* tables; when at least one table has it, the outer
join makes the column present and a merged table is produced. -/
theorem c8_amended_fails_iff_id_absent_from_both (old new : Table) :
    update_db old new = none ↔ ("ID" ∉ old.cols ∧ "ID" ∉ new.cols) := by
  by_cases h : "ID" ∈ colUnion old.cols new.cols
  · simp only [update_db, concatOuter]
    rw [if_pos h]
    rw [mem_colUnion] at h
    exact iff_of_false (by simp) (by tauto)
  · simp only [update_db, concatOuter]
    rw [if_neg h]
    rw [mem_colUnion] at h
    push_neg at h
    exact iff_of_true rfl h

/-- C9, counterexample: with one parsed group and `group_number = 0`
(outside the claimed valid bounds `1..n`), group selection does not
fail: Python indexing `infos[0-1] = infos[-1]` returns the last
group. -/
theorem c9_counterexample :
    selectGroup (parseLines metaLines).infos 0 =
      some [["A", "1", "x", "10"], ["A", "1", "y", "20"]] := by decide

/-- C9 (amended): group selection `infos[group_number-1]` follows
Python sequence indexing.  It fails (`IndexError`, modelled `none`)
exactly when `group_number > n` or `group_number ≤ -n` (`n` the number
of groups); for `1 ≤ group_number ≤ n` it returns the group at
position `group_number - 1`; and for `-n < group_number ≤ 0` it does
not fail but wraps around, returning the group at position
`group_number - 1 + n` (so `group_number = 0` returns the last
group). -/
theorem c9_amended_python_index_semantics {α : Type} (l : List α) (g : ℤ) :
    (selectGroup l g = none ↔ ((l.length : ℤ) < g ∨ g + (l.length : ℤ) ≤ 0)) ∧
    (1 ≤ g → g ≤ (l.length : ℤ) → selectGroup l g = l[(g - 1).toNat]?) ∧
    (g ≤ 0 → 0 < g + (l.length : ℤ) →
      selectGroup l g = l[(g - 1 + (l.length : ℤ)).toNat]?) := by
  simp only [selectGroup, pyIndex]
  by_cases hg : g - 1 < 0
  · rw [if_pos hg]
    by_cases hj : g - 1 + (l.length : ℤ) < 0
    · rw [if_pos hj]
      exact ⟨iff_of_true rfl (by omega),
        fun h1 _ => absurd h1 (by omega), fun _ h2 => absurd h2 (by omega)⟩
    · rw [if_neg hj]
      refine ⟨?_, fun h1 _ => absurd h1 (by omega), fun _ _ => rfl⟩
      refine iff_of_false (fun hnone => ?_) (by omega)
      rw [List.getElem?_eq_none_iff] at hnone
      omega
  · rw [if_neg hg, if_neg hg]
    refine ⟨?_, fun _ _ => rfl, fun h1 _ => absurd h1 (by omega)⟩
    constructor
    · intro hnone
      rw [List.getElem?_eq_none_iff] at hnone
      omega
    · intro hor
      rw [List.getElem?_eq_none_iff]
      omega

/-- C9, witness for the amended theorem: on a two-element list,
position 2 selects the second element, and position 0 wraps to the
second (last) element instead of failing. -/
theorem c9_witness :
    selectGroup ["a", "b"] 2 = some "b" ∧ selectGroup ["a", "b"] 0 = some "b" := by
  constructor
  · exact ((c9_amended_python_index_semantics ["a", "b"] 2).2.1
      (by norm_num) (by norm_num)).trans (by decide)
  · exact ((c9_amended_python_index_semantics ["a", "b"] 0).2.2
      (by norm_num) (by norm_num)).trans (by decide)

theorem linspace_length (a b : ℚ) (n : ℕ) : (linspace a b n).length = n := by
  rw [linspace]
  split <;> rw [List.length_map, List.length_range]

theorem range_map_getD (l : List ℚ) :
    (List.range l.length).map (fun i => l.getD i 0) = l := by
  induction l with
  | nil => rfl
  | cons a t ih =>
    rw [List.length_cons, List.range_succ_eq_map, List.map_cons, List.map_map,
      List.getD_cons_zero]
    have hc : ∀ i ∈ List.range t.length,
        ((fun i => (a :: t).getD i 0) ∘ Nat.succ) i = t.getD i 0 := by
      intro i _
      simp [List.getD_cons_succ]
    rw [List.map_congr_left hc, ih]

theorem interpGrid_natCast (fp : List ℚ) (i : ℕ) (h : i < fp.length) :
    interpGrid fp (i : ℚ) = fp.getD i 0 := by
  induction fp generalizing i with
  | nil => simp at h
  | cons a t ih =>
    cases t with
    | nil =>
      have : i = 0 := by simpa using Nat.lt_one_iff.mp (by simpa using h)
      subst this
      rfl
    | cons b t2 =>
      rcases i with _ | (_ | n)
      · rw [Nat.cast_zero, interpGrid, if_pos le_rfl, List.getD_cons_zero]
      · rw [Nat.cast_one, interpGrid, if_neg (by norm_num), if_pos le_rfl]
        rw [List.getD_cons_succ, List.getD_cons_zero]
        ring
      · have hx0 : ¬((n + 2 : ℕ) : ℚ) ≤ 0 := by
          rw [not_le]
          push_cast
          positivity
        have hx1 : ¬((n + 2 : ℕ) : ℚ) ≤ 1 := by
          rw [not_le]
          push_cast
          nlinarith [Nat.cast_nonneg (α := ℚ) n]
        rw [interpGrid, if_neg hx0, if_neg hx1]
        have hcast : ((n + 2 : ℕ) : ℚ) - 1 = ((n + 1 : ℕ) : ℚ) := by
          push_cast
          ring
        rw [hcast, ih (n + 1) (by simpa using Nat.lt_of_succ_lt_succ h)]
        simp [List.getD_cons_succ]

theorem linspace_id (L : ℕ) (hL : 2 ≤ L) :
    linspace 0 ((L : ℚ) - 1) L = (List.range L).map (fun i : ℕ => (i : ℚ)) := by
  rw [linspace, if_neg (by omega)]
  apply List.map_congr_left
  intro i _
  have hne : ((L : ℚ) - 1) ≠ 0 := by
    have h2 : (2 : ℚ) ≤ (L : ℚ) := by exact_mod_cast hL
    intro h0
    nlinarith
  rw [zero_add, sub_zero, mul_comm, mul_div_assoc, div_self hne, mul_one]

theorem interp1d_self (v : List ℚ) (h : 1 ≤ v.length) : interp1d v v.length = v := by
  rcases Nat.lt_or_ge v.length 2 with h2 | h2
  · have hl1 : v.length = 1 := by omega
    obtain ⟨a, rfl⟩ : ∃ a, v = [a] := by
      cases v with
      | nil => simp at hl1
      | cons a t =>
        cases t with
        | nil => exact ⟨a, rfl⟩
        | cons b t2 => simp at hl1
    rfl
  · rw [interp1d]
    calc (linspace 0 ((v.length : ℚ) - 1) v.length).map (interpGrid v)
        = ((List.range v.length).map (fun i : ℕ => (i : ℚ))).map (interpGrid v) := by
          rw [linspace_id v.length h2]
      _ = (List.range v.length).map (fun i => v.getD i 0) := by
          rw [List.map_map]
          apply List.map_congr_left
          intro i hi
          simpa using interpGrid_natCast v i (List.mem_range.mp hi)
      _ = v := range_map_getD v

/-- C6: for every vector of length at least 1 and every target length
at least 1, resampling returns a vector of exactly the target length;
and resampling a vector to its own length returns the vector itself
(exactly, in rational arithmetic: the sample points align with the
original indices). -/
theorem c6_resample_length_and_identity (v : List ℚ) (F : ℕ)
    (hv : 1 ≤ v.length) (_hF : 1 ≤ F) :
    (interp1d v F).length = F ∧ interp1d v v.length = v :=
  ⟨by rw [interp1d, List.length_map, linspace_length], interp1d_self v hv⟩

/-- C6, witness: resampling the three-sample vector `[0, 1/2, 1]` to
length 5 yields 5 samples, and resampling it to length 3 returns it
unchanged. -/
theorem c6_witness :
    (interp1d [0, 1/2, 1] 5).length = 5 ∧ interp1d [0, 1/2, 1] 3 = [0, 1/2, 1] :=
  c6_resample_length_and_identity [0, 1/2, 1] 5 (by norm_num) (by norm_num)

/-- C7, counterexample: a well-formed input with two GROUP blocks
(balanced markers; the common row `A` is as wide as the COMMON header
`id`, and each group row is as wide as its group header line).  The
global header grows with every group header (`["id","g1","g2"]`,
width 3), while every parsed row has width 2, so the parsed header
length differs from the column count of the group rows. -/
theorem c7_counterexample :
    (parseLines ["*--*", "id", "A", "*--*", "*-*", "g1", "x", "*-*",
      "*-*", "g2", "y", "*-*"]).header = ["id", "g1", "g2"] ∧
    (parseLines ["*--*", "id", "A", "*--*", "*-*", "g1", "x", "*-*",
      "*-*", "g2", "y", "*-*"]).infos = [[["A", "x"]], [["A", "y"]]] := by decide

theorem foldl_step_group_rows (rs : List String) (s : ParserState)
    (h2 : s.level = 2) (hf : s.first_line = false)
    (hrs : ∀ r ∈ rs, isMarker1 r = false ∧ isMarker2 r = false) :
    List.foldl step s rs =
      { s with data := s.data ++ rs.map (fun r => s.common ++ pySplitComma r) } := by
  induction rs generalizing s with
  | nil => simp
  | cons r rest ih =>
    obtain ⟨lv, fl, hd, cm, da, inf⟩ := s
    simp only at h2 hf
    subst h2
    subst hf
    rw [List.foldl_cons]
    have hm := hrs r (List.mem_cons_self r rest)
    have hstep : step ⟨2, false, hd, cm, da, inf⟩ r =
        ⟨2, false, hd, cm, da ++ [cm ++ pySplitComma r], inf⟩ := by
      simp [step, markerUpdate, hm.1, hm.2]
    rw [hstep, ih ⟨2, false, hd, cm, da ++ [cm ++ pySplitComma r], inf⟩ rfl rfl
      (fun r2 hr2 => hrs r2 (List.mem_cons_of_mem r hr2))]
    simp

/-- C7 (amended): for well-formed metadata input consisting of exactly
one COMMON block (header line `ch`, common row `cr`) followed by
exactly one GROUP block (header line `gh`, data rows `rs`), with
balanced markers, no content line starting with a marker, the common
row as wide as the COMMON header and every group row as wide as the
GROUP header line, the parsed header length equals the column count of
every row of every parsed group.  (With two or more GROUP blocks the
property fails, because every group header line grows the shared
header.) -/
theorem c7_amended_single_group_header_width
    (ch cr gh : String) (rs : List String)
    (hch1 : isMarker1 ch = false) (hch2 : isMarker2 ch = false)
    (hcr1 : isMarker1 cr = false) (hcr2 : isMarker2 cr = false)
    (hgh1 : isMarker1 gh = false) (hgh2 : isMarker2 gh = false)
    (hrs : ∀ r ∈ rs, isMarker1 r = false ∧ isMarker2 r = false)
    (hcw : (pySplitComma cr).length = (pySplitComma ch).length)
    (hrw : ∀ r ∈ rs, (pySplitComma r).length = (pySplitComma gh).length) :
    ∀ g ∈ (parseLines (["*--*", ch, cr, "*--*", "*-*", gh] ++ rs ++ ["*-*"])).infos,
      ∀ row ∈ g,
        row.length =
          (parseLines (["*--*", ch, cr, "*--*", "*-*", gh] ++ rs ++ ["*-*"])).header.length := by
  have m1a : isMarker1 "*--*" = true := by decide
  have m2a : isMarker2 "*--*" = false := by decide
  have m1b : isMarker1 "*-*" = false := by decide
  have m2b : isMarker2 "*-*" = true := by decide
  have h0 : step initState "*--*" = ⟨1, true, [], [], [], []⟩ := by decide
  have h1 : step ⟨1, true, [], [], [], []⟩ ch =
      ⟨1, false, pySplitComma ch, [], [], []⟩ := by
    simp [step, markerUpdate, hch1, hch2]
  have h2 : step ⟨1, false, pySplitComma ch, [], [], []⟩ cr =
      ⟨1, false, pySplitComma ch, pySplitComma cr, [], []⟩ := by
    simp [step, markerUpdate, hcr1, hcr2]
  have h3 : step ⟨1, false, pySplitComma ch, pySplitComma cr, [], []⟩ "*--*" =
      ⟨0, false, pySplitComma ch, pySplitComma cr, [], []⟩ := by
    simp [step, m1a]
  have h4 : step ⟨0, false, pySplitComma ch, pySplitComma cr, [], []⟩ "*-*" =
      ⟨2, true, pySplitComma ch, pySplitComma cr, [], []⟩ := by
    simp [step, markerUpdate, m1b, m2b]
  have h5 : step ⟨2, true, pySplitComma ch, pySplitComma cr, [], []⟩ gh =
      ⟨2, false, renameFeed (pySplitComma ch ++ pySplitComma gh),
        pySplitComma cr, [], []⟩ := by
    simp [step, markerUpdate, hgh1, hgh2]
  have hpre : List.foldl step initState ["*--*", ch, cr, "*--*", "*-*", gh] =
      ⟨2, false, renameFeed (pySplitComma ch ++ pySplitComma gh),
        pySplitComma cr, [], []⟩ := by
    simp only [List.foldl_cons, List.foldl_nil, h0, h1, h2, h3, h4, h5]
  have hfinal : parseLines (["*--*", ch, cr, "*--*", "*-*", gh] ++ rs ++ ["*-*"]) =
      ⟨0, false, renameFeed (pySplitComma ch ++ pySplitComma gh), pySplitComma cr,
        [], [rs.map (fun r => pySplitComma cr ++ pySplitComma r)]⟩ := by
    rw [parseLines, List.foldl_append, List.foldl_append, hpre,
      foldl_step_group_rows rs _ rfl rfl hrs]
    simp [step, m2b]
  rw [hfinal]
  intro g hg row hrow
  simp only [List.mem_singleton] at hg
  subst hg
  obtain ⟨r, hr, rfl⟩ := List.mem_map.mp hrow
  simp only [List.length_append, renameFeed, List.length_map, hcw, hrw r hr]

/-- C7, witness for the amended theorem: in the fully concrete
scenario input, the parsed row `["A","1","x","10"]` is as wide as the
parsed header. -/
theorem c7_witness :
    (["A", "1", "x", "10"] : List String).length =
      (parseLines (["*--*", "id,sex", "A,1", "*--*", "*-*", "feed,weight"] ++
        ["x,10", "y,20"] ++ ["*-*"])).header.length :=
  c7_amended_single_group_header_width "id,sex" "A,1" "feed,weight" ["x,10", "y,20"]
    (by decide) (by decide) (by decide) (by decide) (by decide) (by decide)
    (by decide) (by decide) (by decide)
    [["A", "1", "x", "10"], ["A", "1", "y", "20"]] (by decide)
    ["A", "1", "x", "10"] (by decide)

theorem update_db_eq (old new : Table) (h : "ID" ∈ colUnion old.cols new.cols) :
    update_db old new = some ⟨colUnion old.cols new.cols,
      dedupLastBy (rowID (colUnion old.cols new.cols))
        (old.rows.map (fun r => alignRow old.cols r (colUnion old.cols new.cols)) ++
         new.rows.map (fun r => alignRow new.cols r (colUnion old.cols new.cols)))⟩ := by
  simp only [update_db, concatOuter]
  rw [if_pos h]

theorem map_rowID_align (cols : List String) (rows : List (List (Option String)))
    (cc : List String) (h : "ID" ∈ cc) :
    (rows.map (fun r => alignRow cols r cc)).map (rowID cc) = rows.map (rowID cols) := by
  rw [List.map_map]
  apply List.map_congr_left
  intro r _
  exact rowID_alignRow cols r cc h

/-- C4: when both tables have an `ID` column, the merge succeeds and
the merged table contains every identifier occurring in either input
exactly once (its identifier list has no duplicates and is the union
of the input identifier lists); and for an identifier occurring in
both tables, the unique surviving row is the rightmost row of the new
table bearing that identifier (reindexed to the merged column set). -/
theorem c4_merge_ids_exactly_once_last_wins (old new : Table)
    (hold : "ID" ∈ old.cols) (_hnew : "ID" ∈ new.cols) :
    ∃ m, update_db old new = some m ∧
      (tableIDs m).Nodup ∧
      (∀ v, v ∈ tableIDs m ↔ (v ∈ tableIDs old ∨ v ∈ tableIDs new)) ∧
      (∀ v, v ∈ tableIDs old → v ∈ tableIDs new →
        m.rows.filter (fun r => decide (rowID m.cols r = v)) =
          ((new.rows.filter (fun r => decide (rowID new.cols r = v))).getLast?.map
            (fun r => alignRow new.cols r (colUnion old.cols new.cols))).toList) := by
  have hcc : "ID" ∈ colUnion old.cols new.cols := (mem_colUnion _ _ _).mpr (Or.inl hold)
  refine ⟨_, update_db_eq old new hcc, ?_, ?_, ?_⟩
  · simpa [tableIDs] using nodup_map_dedupLastBy (rowID (colUnion old.cols new.cols))
      (old.rows.map (fun r => alignRow old.cols r (colUnion old.cols new.cols)) ++
       new.rows.map (fun r => alignRow new.cols r (colUnion old.cols new.cols)))
  · intro v
    simp only [tableIDs]
    rw [mem_map_dedupLastBy, List.map_append, map_rowID_align old.cols old.rows _ hcc,
      map_rowID_align new.cols new.rows _ hcc, List.mem_append]
  · intro v hvold hvnew
    simp only [tableIDs] at hvnew
    simp only [tableIDs]
    rw [filter_dedupLastBy, List.filter_append]
    have hnewfilter :
        (new.rows.map (fun r => alignRow new.cols r (colUnion old.cols new.cols))).filter
            (fun x => decide (rowID (colUnion old.cols new.cols) x = v)) =
          (new.rows.filter (fun r => decide (rowID new.cols r = v))).map
            (fun r => alignRow new.cols r (colUnion old.cols new.cols)) := by
      rw [List.filter_map]
      congr 1
      apply List.filter_congr
      intro r _
      simp [rowID_alignRow new.cols r _ hcc]
    have hne : new.rows.filter (fun r => decide (rowID new.cols r = v)) ≠ [] := by
      obtain ⟨r, hr, hrv⟩ := List.mem_map.mp hvnew
      exact List.ne_nil_of_mem (List.mem_filter.mpr ⟨hr, by simp [hrv]⟩)
    obtain ⟨y, hy⟩ : ∃ y,
        (new.rows.filter (fun r => decide (rowID new.cols r = v))).getLast? = some y := by
      cases hgl : (new.rows.filter (fun r => decide (rowID new.cols r = v))).getLast? with
      | none => exact absurd (List.getLast?_eq_none_iff.mp hgl) hne
      | some y => exact ⟨y, rfl⟩
    rw [hnewfilter, List.getLast?_append, List.getLast?_map, hy]
    simp

/-- C5: the upsert merge is idempotent.  If merging `new` into `old`
produced the table `m`, then merging `new` into `m` again produces `m`
itself, rows, values and order unchanged. -/
theorem c5_merge_idempotent (old new m : Table)
    (h1 : old.WF) (h2 : new.WF) (h : update_db old new = some m) :
    update_db m new = some m := by
  have hcc : "ID" ∈ colUnion old.cols new.cols := by
    by_contra hid
    simp only [update_db, concatOuter] at h
    rw [if_neg hid] at h
    exact Option.noConfusion h
  rw [update_db_eq old new hcc] at h
  injection h with h
  subst h
  have hccnd : (colUnion old.cols new.cols).Nodup := colUnion_nodup h1.1 h2.1
  have hsub : ∀ c ∈ new.cols, c ∈ colUnion old.cols new.cols :=
    fun c hc => (mem_colUnion _ _ _).mpr (Or.inr hc)
  have hcu : colUnion (colUnion old.cols new.cols) new.cols = colUnion old.cols new.cols :=
    colUnion_eq_left hsub
  have hlen : ∀ r ∈ dedupLastBy (rowID (colUnion old.cols new.cols))
      (old.rows.map (fun r => alignRow old.cols r (colUnion old.cols new.cols)) ++
       new.rows.map (fun r => alignRow new.cols r (colUnion old.cols new.cols))),
      r.length = (colUnion old.cols new.cols).length := by
    intro r hr
    have hr2 := (dedupLastBy_sublist _ _).subset hr
    rw [List.mem_append] at hr2
    rcases hr2 with hr2 | hr2 <;>
      · obtain ⟨r0, _, rfl⟩ := List.mem_map.mp hr2
        simp [alignRow]
  have halign : (dedupLastBy (rowID (colUnion old.cols new.cols))
      (old.rows.map (fun r => alignRow old.cols r (colUnion old.cols new.cols)) ++
       new.rows.map (fun r => alignRow new.cols r (colUnion old.cols new.cols)))).map
        (fun r => alignRow (colUnion old.cols new.cols) r (colUnion old.cols new.cols)) =
      dedupLastBy (rowID (colUnion old.cols new.cols))
        (old.rows.map (fun r => alignRow old.cols r (colUnion old.cols new.cols)) ++
         new.rows.map (fun r => alignRow new.cols r (colUnion old.cols new.cols))) := by
    have hpt : ∀ r ∈ dedupLastBy (rowID (colUnion old.cols new.cols))
        (old.rows.map (fun r => alignRow old.cols r (colUnion old.cols new.cols)) ++
         new.rows.map (fun r => alignRow new.cols r (colUnion old.cols new.cols))),
        alignRow (colUnion old.cols new.cols) r (colUnion old.cols new.cols) = id r :=
      fun r hr => alignRow_self _ r hccnd (hlen r hr)
    rw [List.map_congr_left hpt, List.map_id]
  simp only [update_db, concatOuter]
  rw [hcu, if_pos hcc, halign, dedupLastBy_append_self]

/-- C5, witness: a concrete idempotent merge.  `update_db T1 T2` gives
the table `M` below, and merging `T2` into `M` returns `M` again. -/
theorem c5_witness :
    update_db ⟨["ID", "v", "w"], [[some "1", none, some "b"], [some "2", none, some "c"]]⟩
        ⟨["ID", "w"], [[some "1", some "b"], [some "2", some "c"]]⟩ =
      some ⟨["ID", "v", "w"],
        [[some "1", none, some "b"], [some "2", none, some "c"]]⟩ :=
  c5_merge_idempotent ⟨["ID", "v"], [[some "1", some "a"]]⟩
    ⟨["ID", "w"], [[some "1", some "b"], [some "2", some "c"]]⟩
    ⟨["ID", "v", "w"], [[some "1", none, some "b"], [some "2", none, some "c"]]⟩
    ⟨by decide, by decide⟩ ⟨by decide, by decide⟩ (by decide)

/-- C4, witness: for the same concrete tables, the merge succeeds, the
merged identifier list is duplicate-free and is the union of the input
identifier lists, and the shared identifier keeps the new row. -/
theorem c4_witness :
    ∃ m, update_db ⟨["ID", "v"], [[some "1", some "a"]]⟩
        ⟨["ID", "w"], [[some "1", some "b"], [some "2", some "c"]]⟩ = some m ∧
      (tableIDs m).Nodup ∧
      (∀ v, v ∈ tableIDs m ↔
        (v ∈ tableIDs ⟨["ID", "v"], [[some "1", some "a"]]⟩ ∨
         v ∈ tableIDs ⟨["ID", "w"], [[some "1", some "b"], [some "2", some "c"]]⟩)) ∧
      (∀ v, v ∈ tableIDs ⟨["ID", "v"], [[some "1", some "a"]]⟩ →
        v ∈ tableIDs ⟨["ID", "w"], [[some "1", some "b"], [some "2", some "c"]]⟩ →
        m.rows.filter (fun r => decide (rowID m.cols r = v)) =
          (((⟨["ID", "w"], [[some "1", some "b"], [some "2", some "c"]]⟩ : Table)).rows.filter
              (fun r => decide (rowID ["ID", "w"] r = v)) |>.getLast?.map
            (fun r => alignRow ["ID", "w"] r (colUnion ["ID", "v"] ["ID", "w"]))).toList) :=
  c4_merge_ids_exactly_once_last_wins ⟨["ID", "v"], [[some "1", some "a"]]⟩
    ⟨["ID", "w"], [[some "1", some "b"], [some "2", some "c"]]⟩ (by decide) (by decide)

/-- C10: frame condition of the merge.  When the persisted table is
well formed with duplicate-free identifiers and has the `ID` column,
the merged rows are exactly: the existing rows whose identifier does
not occur in the new table, in their original order, each unchanged in
its own columns and padded with missing values for the new-only
columns, followed by the new rows (deduplicated last-wins) in their
original order.  (The contiguous renumbering of the row index is
implicit in the list representation.) -/
theorem c10_frame_merge_order (old new m : Table)
    (h1 : old.WF) (hold : "ID" ∈ old.cols)
    (hids : (tableIDs old).Nodup) (h : update_db old new = some m) :
    m.cols = colUnion old.cols new.cols ∧
    m.rows =
      (old.rows.filter (fun r => decide (rowID old.cols r ∉ tableIDs new))).map
        (fun r => r ++ (new.cols.filter (fun c => decide (c ∉ old.cols))).map
          (fun _ => (none : Option String))) ++
      dedupLastBy (rowID (colUnion old.cols new.cols))
        (new.rows.map (fun r => alignRow new.cols r (colUnion old.cols new.cols))) := by
  have hcc : "ID" ∈ colUnion old.cols new.cols := (mem_colUnion _ _ _).mpr (Or.inl hold)
  rw [update_db_eq old new hcc] at h
  injection h with h
  subst h
  refine ⟨rfl, ?_⟩
  show dedupLastBy (rowID (colUnion old.cols new.cols))
      (old.rows.map (fun r => alignRow old.cols r (colUnion old.cols new.cols)) ++
       new.rows.map (fun r => alignRow new.cols r (colUnion old.cols new.cols))) = _
  rw [dedupLastBy_append]
  congr 1
  have hnd : ((old.rows.map (fun r => alignRow old.cols r (colUnion old.cols new.cols))).map
      (rowID (colUnion old.cols new.cols))).Nodup := by
    rw [map_rowID_align old.cols old.rows _ hcc]
    exact hids
  rw [dedupLastBy_eq_self _ _ hnd, List.filter_map]
  have hfilter : old.rows.filter
      ((fun x => !(new.rows.map (fun r => alignRow new.cols r (colUnion old.cols new.cols))).any
          (fun y => decide (rowID (colUnion old.cols new.cols) y =
            rowID (colUnion old.cols new.cols) x))) ∘
        (fun r => alignRow old.cols r (colUnion old.cols new.cols))) =
      old.rows.filter (fun r => decide (rowID old.cols r ∉ tableIDs new)) := by
    apply List.filter_congr
    intro r _
    simp only [Function.comp_apply, rowID_alignRow old.cols r _ hcc]
    by_cases hmem : rowID old.cols r ∈ tableIDs new
    · have hy : (new.rows.map (fun r2 => alignRow new.cols r2 (colUnion old.cols new.cols))).any
          (fun y => decide (rowID (colUnion old.cols new.cols) y = rowID old.cols r)) = true := by
        simp only [List.any_eq_true, decide_eq_true_eq]
        simp only [tableIDs] at hmem
        obtain ⟨r2, hr2, hrv⟩ := List.mem_map.mp hmem
        exact ⟨alignRow new.cols r2 (colUnion old.cols new.cols), List.mem_map_of_mem _ hr2,
          by rw [rowID_alignRow new.cols r2 _ hcc, hrv]⟩
      simp [hy, hmem]
    · have hy : (new.rows.map (fun r2 => alignRow new.cols r2 (colUnion old.cols new.cols))).any
          (fun y => decide (rowID (colUnion old.cols new.cols) y = rowID old.cols r)) = false := by
        rw [List.any_eq_false]
        intro y hy2
        obtain ⟨r2, hr2, rfl⟩ := List.mem_map.mp hy2
        simp only [decide_eq_true_eq, rowID_alignRow new.cols r2 _ hcc]
        intro heq
        exact hmem (by simp only [tableIDs]; exact heq ▸ List.mem_map_of_mem _ hr2)
      simp [hy, hmem]
  rw [hfilter]
  apply List.map_congr_left
  intro r hr
  have hrow : r ∈ old.rows := (List.mem_filter.mp hr).1
  show alignRow old.cols r (old.cols ++ new.cols.filter (fun c => decide (c ∉ old.cols))) = _
  rw [alignRow_append_pad old.cols r _ h1.1 (h1.2 r hrow)]
  intro c hcf
  exact of_decide_eq_true (List.mem_filter.mp hcf).2

/-- C10, witness: in the concrete merge of the C5 witness, the old row
with identifier `1` is superseded and the merged rows are exactly the
deduplicated aligned new rows (no old identifier survives outside the
new table). -/
theorem c10_witness :
    (⟨["ID", "v", "w"], [[some "1", none, some "b"], [some "2", none, some "c"]]⟩ : Table).cols =
      colUnion ["ID", "v"] ["ID", "w"] ∧
    (⟨["ID", "v", "w"], [[some "1", none, some "b"], [some "2", none, some "c"]]⟩ : Table).rows =
      ((⟨["ID", "v"], [[some "1", some "a"]]⟩ : Table).rows.filter
          (fun r => decide (rowID ["ID", "v"] r ∉
            tableIDs ⟨["ID", "w"], [[some "1", some "b"], [some "2", some "c"]]⟩))).map
        (fun r => r ++ ((["ID", "w"] : List String).filter
          (fun c => decide (c ∉ (["ID", "v"] : List String)))).map
          (fun _ => (none : Option String))) ++
      dedupLastBy (rowID (colUnion ["ID", "v"] ["ID", "w"]))
        ((⟨["ID", "w"], [[some "1", some "b"], [some "2", some "c"]]⟩ : Table).rows.map
          (fun r => alignRow ["ID", "w"] r (colUnion ["ID", "v"] ["ID", "w"]))) :=
  c10_frame_merge_order ⟨["ID", "v"], [[some "1", some "a"]]⟩
    ⟨["ID", "w"], [[some "1", some "b"], [some "2", some "c"]]⟩
    ⟨["ID", "v", "w"], [[some "1", none, some "b"], [some "2", none, some "c"]]⟩
    ⟨by decide, by decide⟩ (by decide) (by decide) (by decide)

end ImageAnalysis
